import Mathlib

/-!
# Verification of the JUB-Scrap harvest-resume-dedup-download pipeline

A shallow embedding of the core logic of `scrap_html.py` (UPC decisions
scraper).  Strings are modelled as lists of characters (`Str`), so that every
definition is executable and kernel-reducible; integer indices coming from
Python (which may be negative, e.g. `len(headers) - 1` for an empty header
row) are modelled as `Int` with Python's negative-indexing semantics.

The embedding covers:
* the merge / dedup / sort step of `main` (lines 344-350),
* the resume-point computation (lines 285-288),
* the pagination loop with its consecutive-error and consecutive-empty
  counters (lines 292-338), driven by a finite trace of page outcomes,
* `parse_table` (lines 141-203) including the `UPC Document` header lookup
  with last-column fallback, Python list indexing that can raise, the
  `"%d %B %Y"` date parsing with raw-text fallback, and relative URL
  resolution through `urljoin` against the module constant `BASE_URL`,
* `sanitize` (lines 206-210) and the PDF target-filename construction
  (lines 245-249),
* `download_pdf` with its retry loop (lines 213-232) and
  `download_pdfs_parallel` (lines 235-255), with the network modelled as an
  oracle from attempt numbers to results,
* `save` (lines 272-275), modelled as the trace of file-system operations it
  performs, to reason about crash-atomicity.
-/

namespace JUBScrap

/-- Strings are modelled as lists of characters. -/
abbrev Str := List Char

/-- Coerce a Lean string literal into the character-list model. -/
def str (s : String) : Str := s.data

/-- Python `str.strip()`: drop leading and trailing whitespace. -/
def trimChars (cs : Str) : Str :=
  ((cs.dropWhile Char.isWhitespace).reverse.dropWhile Char.isWhitespace).reverse

/-- Split a character list on a separator character (keeping empty pieces),
like Python `"x".split(sep)` / the model of `splitlines` used for
newline-separated cell text. -/
def splitOnChar (sep : Char) (cs : Str) : List Str :=
  cs.foldr
    (fun c acc =>
      if c = sep then [] :: acc
      else
        match acc with
        | a :: rest => (c :: a) :: rest
        | [] => [[c]])
    [[]]

/-- Python `needle in hay` on strings: substring test. -/
def containsSub (needle : Str) : Str → Bool
  | [] => needle.isEmpty
  | c :: rest => needle.isPrefixOf (c :: rest) || containsSub needle rest

/-- Split on whitespace runs, dropping empty pieces (used to model how
`strptime` lets a literal space in the format match a whitespace run). -/
def words (cs : Str) : List Str :=
  ((splitOnChar ' ' cs).map fun w => w.filter fun c => !c.isWhitespace).filter
    fun w => !w.isEmpty

/-- Numeric value of a digit string. -/
def natOfDigits (cs : Str) : Nat :=
  cs.foldl (fun n c => 10 * n + (c.toNat - '0'.toNat)) 0

/-- Lowercase every character (models the case-insensitive `%B` match). -/
def toLowerChars (cs : Str) : Str := cs.map Char.toLower

/-- Python `"\n".join(lines)`. -/
def joinNL (lines : List Str) : Str :=
  match lines with
  | [] => []
  | l :: rest => rest.foldl (fun acc x => acc ++ '\n' :: x) l

/-- One harvested decision row, with the column values of the script's
DataFrame (`COLUMNS`, lines 37-47).  `registry` is the joined
newline-separated text, as stored in the `Registry` column. -/
structure Record where
  date : Str
  registry : Str
  fullDetails : Str
  court : Str
  actionType : Str
  parties : Str
  upcDocument : Str
  pdfFile : Str
  page : Nat
deriving DecidableEq, Repr

/-- The deduplication key used by
`drop_duplicates(subset=["Registry", "UPC Document"])` (line 347). -/
def key (r : Record) : Str × Str := (r.registry, r.upcDocument)

/-- Keep-first deduplication by `key`, with an accumulator of already-seen
keys; embeds `DataFrame.drop_duplicates(..., keep="first")`. -/
def dedupKeep (seen : List (Str × Str)) : List Record → List Record
  | [] => []
  | r :: rs =>
    if key r ∈ seen then dedupKeep seen rs
    else r :: dedupKeep (key r :: seen) rs

/-- `df.drop_duplicates(subset=["Registry", "UPC Document"], keep="first")`. -/
def drop_duplicates (l : List Record) : List Record := dedupKeep [] l

/-- Ordering on records by page index, for `sort_values(by=PAGE_COL)`. -/
def pageLE (a b : Record) : Prop := a.page ≤ b.page

instance : DecidableRel pageLE := fun a b => Nat.decLe a.page b.page

instance : IsTotal Record pageLE := ⟨fun a b => Nat.le_total a.page b.page⟩

instance : IsTrans Record pageLE := ⟨fun _ _ _ => Nat.le_trans⟩

/-- `df.sort_values(by=PAGE_COL, ignore_index=True)` (line 348), modelled as a
deterministic stable sort by page index ascending. -/
def sort_values (l : List Record) : List Record := l.insertionSort pageLE

/-- The merge step of `main` (lines 346-348): concatenate the old dataset and
the new records, deduplicate by (`Registry`, `UPC Document`) keeping the first
occurrence in concatenation order, then sort by page index ascending. -/
def merge (old new : List Record) : List Record :=
  sort_values (drop_duplicates (old ++ new))

/-- Keys seen after scanning a list, starting from `seen` (the accumulator
`dedupKeep` threads through). -/
def seenAfter (l : List Record) (seen : List (Str × Str)) : List (Str × Str) :=
  match l with
  | [] => seen
  | r :: rs =>
    if key r ∈ seen then seenAfter rs seen else seenAfter rs (key r :: seen)

/-- Resume-point computation of `main` (lines 285-288): the `Page` column may
have missing values (`NA` after loading a legacy file); the start page is
`max + 1` over present values, or `0` when none is present. -/
def startPage (pages : List (Option Nat)) : Nat :=
  match (pages.filterMap id).max? with
  | none => 0
  | some k => k + 1

/-! ## The pagination loop (lines 292-338 of `main`)

One loop iteration either fails to load the page (`driver.get` /
`wait_for_table` throws, both `except` branches behave identically) or loads
it and parses it to a list of records.  The loop is driven by a finite trace
of such outcomes, one per iteration. -/

/-- Outcome of one attempt to load and parse a page. -/
inductive PageOutcome
  | loadError
  | loaded (records : List Record)
deriving DecidableEq, Repr

/-- How a run of the pagination loop ends.  `stopped` is the normal
`max_empty_pages` break, `aborted` the `max_errors` break
(`persistent_error = True`); `outOfTrace` marks exhaustion of the finite
outcome trace driving the model. -/
inductive RunStatus
  | stopped
  | aborted
  | outOfTrace
deriving DecidableEq, Repr

/-- The mutable state of the loop in `main`: `page`, `empty_count`,
`error_count` and the accumulator `all_records`. -/
structure LoopSt where
  page : Nat
  emptyCount : Nat
  errorCount : Nat
  acc : List Record
deriving DecidableEq, Repr

/-- Result of one loop iteration: continue with a new state, or break with a
terminal status. -/
inductive StepResult
  | next (s : LoopSt)
  | halt (status : RunStatus) (s : LoopSt)
deriving DecidableEq, Repr

/-- The loop state carried by a step result. -/
def StepResult.state : StepResult → LoopSt
  | .next s => s
  | .halt _ s => s

/-- One iteration of the `while True` loop (lines 292-338).  On a load error
the error counter is incremented and checked against `max_errors`; on a
successfully loaded page the error counter is reset, then an empty parse
increments the empty counter and checks `max_empty_pages`, while a non-empty
parse resets the empty counter and extends the accumulator. -/
def stepPage (maxEmpty maxErrors : Nat) (s : LoopSt) : PageOutcome → StepResult
  | .loadError =>
    let ec := s.errorCount + 1
    if maxErrors ≤ ec then
      .halt .aborted { s with errorCount := ec }
    else
      .next { s with errorCount := ec, page := s.page + 1 }
  | .loaded recs =>
    let s := { s with errorCount := 0 }
    if recs.isEmpty then
      let em := s.emptyCount + 1
      if maxEmpty ≤ em then
        .halt .stopped { s with emptyCount := em }
      else
        .next { s with emptyCount := em, page := s.page + 1 }
    else
      .next { s with emptyCount := 0, acc := s.acc ++ recs, page := s.page + 1 }

/-- Run the pagination loop over a finite trace of page outcomes. -/
def runLoop (maxEmpty maxErrors : Nat) : List PageOutcome → LoopSt → RunStatus × LoopSt
  | [], s => (.outOfTrace, s)
  | o :: os, s =>
    match stepPage maxEmpty maxErrors s o with
    | .next s' => runLoop maxEmpty maxErrors os s'
    | .halt st s' => (st, s')

/-- Initial loop state of `main`: counters at zero, accumulator empty, start
page computed from the persisted dataset. -/
def initSt (startPg : Nat) : LoopSt := ⟨startPg, 0, 0, []⟩

/-- The whole run of `main` after loading: walk the pages, then merge the
accumulated records into the old dataset and persist the result
(lines 344-350).  The merge-and-save step runs on both exit paths of the
loop (normal stop and abort alike). -/
def scrape (old : List Record) (maxEmpty maxErrors startPg : Nat)
    (outcomes : List PageOutcome) : RunStatus × List Record :=
  let (st, s) := runLoop maxEmpty maxErrors outcomes (initSt startPg)
  (st, merge old s.acc)

/-- The records accumulated by a run (the `all_records` list at loop exit). -/
def accumulated (maxEmpty maxErrors startPg : Nat)
    (outcomes : List PageOutcome) : List Record :=
  (runLoop maxEmpty maxErrors outcomes (initSt startPg)).2.acc

/-! ## `parse_table` (lines 141-203)

A raw table is a list of header-cell texts plus a list of rows, each row a
list of cells.  A cell exposes its text, the `href` attributes of its `<a>`
descendants (each possibly null), and the `href` of a `Full Details` link if
such an element exists.  Python list indexing can raise `IndexError`, and the
exception would propagate out of `parse_table` (the call in `main` is outside
the `try` block), so the model returns `Except Unit`. -/

/-- A table cell as seen through the Selenium API. -/
structure Cell where
  text : Str
  anchors : List (Option Str)
  fullDetails : Option Str
deriving DecidableEq, Repr

/-- Python list indexing `l[i]` with negative-index semantics; `.error ()`
models an `IndexError`. -/
def pyGet (l : List Cell) (i : Int) : Except Unit Cell :=
  if 0 ≤ i then
    match l.get? i.toNat with
    | some x => .ok x
    | none => .error ()
  else
    match l.get? (l.length - (-i).toNat) with
    | some x => if (-i).toNat ≤ l.length then .ok x else .error ()
    | none => .error ()

/-- The module constant `BASE_URL` (line 18). -/
def BASE_URL : Str := str "https://www.unified-patent-court.org/en/decisions-and-orders"

/-- Scheme split: `"https://rest"` into `("https", "rest")`. -/
def splitScheme (u : Str) : Option (Str × Str) :=
  let s := u.takeWhile fun c => c ≠ ':'
  let rest := u.drop s.length
  if rest.take 3 = str "://" then some (s, rest.drop 3) else none

/-- `scheme://host` part of a URL. -/
def origin (base : Str) : Str :=
  match splitScheme base with
  | some (sch, rest) => sch ++ str "://" ++ rest.takeWhile fun c => c ≠ '/'
  | none => []

/-- The base URL up to and including its last `/`. -/
def dirOf (base : Str) : Str :=
  (base.reverse.dropWhile fun c => c ≠ '/').reverse

/-- `urllib.parse.urljoin`, modelled for the reference classes that occur
here: network-path (`//…`), absolute-path (`/…`), full URLs with a scheme,
and plain relative references against a base that has a path. -/
def urljoin (base url : Str) : Str :=
  if url = [] then base
  else if url.take 2 = str "//" then
    match splitScheme base with
    | some (sch, _) => sch ++ ':' :: url
    | none => url
  else if url.take 1 = str "/" then origin base ++ url
  else if (splitScheme url).isSome then url
  else dirOf base ++ url

/-- The English month names matched by `%B` under the C locale, lowercased
(the `strptime` match is case-insensitive). -/
def monthNamesLower : List Str :=
  [str "january", str "february", str "march", str "april", str "may",
   str "june", str "july", str "august", str "september", str "october",
   str "november", str "december"]

/-- Gregorian leap year. -/
def isLeap (y : Nat) : Bool :=
  (y % 4 == 0 && y % 100 != 0) || (y % 400 == 0)

/-- Days in a month, as validated by `datetime`. -/
def daysInMonth (m y : Nat) : Nat :=
  if m = 2 then (if isLeap y then 29 else 28)
  else if m = 4 ∨ m = 6 ∨ m = 9 ∨ m = 11 then 30
  else 31

/-- `datetime.strptime(raw, "%d %B %Y")`: a 1-2 digit day, a full English
month name (case-insensitive), a 4-digit year, separated by whitespace runs;
the resulting calendar date must exist (`datetime` validates it). -/
def parseDateDMY (cs : Str) : Option (Nat × Nat × Nat) :=
  match words cs with
  | [d, m, y] =>
    if d.all Char.isDigit && decide (1 ≤ d.length) && decide (d.length ≤ 2)
        && y.all Char.isDigit && decide (y.length = 4) then
      match (monthNamesLower.indexOf? (toLowerChars m)) with
      | some mi =>
        let dn := natOfDigits d
        let yn := natOfDigits y
        if decide (1 ≤ dn) && decide (dn ≤ daysInMonth (mi + 1) yn)
            && decide (1 ≤ yn) then
          some (dn, mi + 1, yn)
        else none
      | none => none
    else none
  | _ => none

/-- Decimal digits of a number, left-padded with zeros to width `k`. -/
def padDigits (k n : Nat) : Str :=
  let ds := Nat.toDigits 10 n
  List.replicate (k - ds.length) '0' ++ ds

/-- `dt.strftime("%d/%m/%Y")`. -/
def formatDMY (d : Nat × Nat × Nat) : Str :=
  padDigits 2 d.1 ++ '/' :: padDigits 2 d.2.1 ++ '/' :: padDigits 4 d.2.2

/-- The document-column index: `headers.index("UPC Document")` on the
stripped header texts, falling back to `len(headers) - 1` (lines 146-151).
The fallback is `-1` for an empty header row, hence the `Int` result. -/
def upcIdx (headers : List Str) : Int :=
  match (headers.map trimChars).findIdx? (fun h => h = str "UPC Document") with
  | some i => (i : Int)
  | none => (headers.length : Int) - 1

/-- The record built from one row's cells (lines 160-202): stripped date
text with `"%d %B %Y"` parsing and raw-text fallback, registry lines with
the `Full Details` boilerplate removed and rejoined, the `Full Details`
link's `href` or the empty string, stripped court / action / parties texts,
and the first anchor's `href` of the document cell, resolved against
`BASE_URL` when non-empty and not starting with `http`. -/
def buildRecord (pg : Nat) (c0 c1 c2 c3 c4 cu : Cell) : Record :=
  { date :=
      match parseDateDMY (trimChars c0.text) with
      | some dmy => formatDMY dmy
      | none => trimChars c0.text
    registry := joinNL ((splitOnChar '\n' c1.text).filter
      fun l => !l.isEmpty && !containsSub (str "Full Details") l)
    fullDetails := c1.fullDetails.getD []
    court := trimChars c2.text
    actionType := trimChars c3.text
    parties := trimChars c4.text
    upcDocument :=
      let rawDoc :=
        match cu.anchors with
        | [] => ([] : Str)
        | a :: _ => a.getD []
      if !rawDoc.isEmpty && !(str "http").isPrefixOf rawDoc then
        urljoin BASE_URL rawDoc
      else rawDoc
    pdfFile := []
    page := pg }

/-- Process one table row (the body of the `for tr in rows` loop,
lines 155-202): skip the row when it has at most `idx` cells, otherwise read
cells 0-4 and cell `idx` (any out-of-range access raises) and build the
record. -/
def processRow (idx : Int) (pg : Nat) (cells : List Cell) :
    Except Unit (Option Record) :=
  if (cells.length : Int) ≤ idx then .ok none
  else
    match pyGet cells 0, pyGet cells 1, pyGet cells 2, pyGet cells 3,
          pyGet cells 4, pyGet cells idx with
    | .ok c0, .ok c1, .ok c2, .ok c3, .ok c4, .ok cu =>
      .ok (some (buildRecord pg c0 c1 c2 c3 c4 cu))
    | _, _, _, _, _, _ => .error ()

/-- Fold `processRow` over the rows in order; a raised `IndexError`
propagates (the call site in `main` is outside the `try`). -/
def parseRows (idx : Int) (pg : Nat) : List (List Cell) → Except Unit (List Record)
  | [] => .ok []
  | cs :: rest =>
    match processRow idx pg cs with
    | .error e => .error e
    | .ok none => parseRows idx pg rest
    | .ok (some r) =>
      match parseRows idx pg rest with
      | .error e => .error e
      | .ok rs => .ok (r :: rs)

/-- `parse_table(driver, page_index)` (lines 141-203), with the raw header
texts and rows as explicit inputs. -/
def parse_table (headers : List Str) (rows : List (List Cell)) (pg : Nat) :
    Except Unit (List Record) :=
  parseRows (upcIdx headers) pg rows

/-! ## `sanitize` and the PDF target filename (lines 206-210 and 245-249)

`sanitize` first replaces `/` by `-`, keeps alphanumerics, space, `-` and
`_`, strips leading/trailing whitespace, and finally turns spaces into `_`.
The character classes are modelled over ASCII (`Char.isAlphanum`). -/

/-- The `name.replace("/", "-")` step. -/
def replSlash (c : Char) : Char := if c = '/' then '-' else c

/-- The filter of the comprehension: `c.isalnum() or c in "-_" or c == " "`. -/
def keepChar (c : Char) : Bool :=
  c.isAlphanum || c == '-' || c == '_' || c == ' '

/-- `sanitize(name)` (lines 206-210) on character lists. -/
def sanitizeChars (cs : Str) : Str :=
  (trimChars ((cs.map replSlash).filter keepChar)).map
    fun c => if c = ' ' then '_' else c

/-- `sanitize(name)` on the string wrapper. -/
def sanitize (s : String) : Str := sanitizeChars s.data

/-- What claim C6 literally describes: keep exactly alphanumerics, space,
`-`, `_` (stripping every other character, `/` included) and turn spaces
into `_` — with no `/`-to-`-` replacement and no end-trimming.  Written from
the claim's words, to be compared with `sanitizeChars`. -/
def sanitizeClaimChars (cs : Str) : Str :=
  (cs.filter keepChar).map fun c => if c = ' ' then '_' else c

/-- The amended description of `sanitize`, written from the amended claim's
words as a single `filterMap` pass followed by trimming and space
replacement: replace `/` by `-`, keep alphanumerics, space, `-`, `_`, drop
everything else, trim end spaces, then spaces become `_`. -/
def sanitizeAmendedChars (cs : Str) : Str :=
  let kept := cs.filterMap fun c =>
    let c := replSlash c
    if keepChar c then some c else none
  (trimChars kept).map fun c => if c = ' ' then '_' else c

/-- The target filename of `download_pdfs_parallel` (lines 245-248):
`f"{sanitize(Date)}_{sanitize(Parties)}_{sanitize(Registry)}_{sanitize(Court)}.pdf"`. -/
def pdfFilename (date parties registry court : Str) : Str :=
  sanitizeChars date ++ '_' :: sanitizeChars parties ++ '_'
    :: sanitizeChars registry ++ '_' :: sanitizeChars court ++ str ".pdf"

/-- `PDF_DIR` (line 24). -/
def PDF_DIR : Str := str "decisions"

/-- `PDF_DIR / filename` for a record. -/
def targetPath (r : Record) : Str :=
  PDF_DIR ++ '/' :: pdfFilename r.date r.parties r.registry r.court

/-! ## `download_pdf` and `download_pdfs_parallel` (lines 213-255)

The network is an oracle from attempt numbers (1-based, as in
`range(1, retries + 1)`) to results; a result is either a response with a
status code or a transport error (`requests.get` raising). -/

/-- `RETRY_DOWNLOADS` (line 25). -/
def RETRY_DOWNLOADS : Nat := 3

/-- One network attempt's outcome. -/
inductive GetResult
  | resp (status : Nat)
  | transportError
deriving DecidableEq, Repr

/-- Whether one attempt succeeds in the code: a response with status exactly
`200` (line 221); any other status raises `ValueError` and is caught together
with transport errors by the `except` branch. -/
def attemptOk : GetResult → Bool
  | .resp s => s == 200
  | .transportError => false

/-- The success criterion claim C5 states: any 2xx response succeeds, a
non-2xx response or transport error fails.  Written from the claim's words,
to be compared with `attemptOk`. -/
def attemptOkClaim : GetResult → Bool
  | .resp s => decide (200 ≤ s) && decide (s < 300)
  | .transportError => false

/-- The retry loop of `download_pdf` (lines 218-230): try attempts
`a, a+1, …` while fuel lasts, returning `true` on the first success. -/
def tryDownload (net : Nat → GetResult) : Nat → Nat → Bool
  | 0, _ => false
  | fuel + 1, a => if attemptOk (net a) then true else tryDownload net fuel (a + 1)

/-- Number of network attempts the retry loop makes. -/
def attemptsUsed (net : Nat → GetResult) : Nat → Nat → Nat
  | 0, _ => 0
  | fuel + 1, a => if attemptOk (net a) then 1 else 1 + attemptsUsed net fuel (a + 1)

/-- The delays slept between attempts: each failed attempt is followed by
`time.sleep(2)` (line 230). -/
def delaysUsed (net : Nat → GetResult) : Nat → Nat → List Nat
  | 0, _ => []
  | fuel + 1, a => if attemptOk (net a) then [] else 2 :: delaysUsed net fuel (a + 1)

/-- `download_pdf(url, path, retries)` (lines 213-232): immediate success
when the target file already exists, otherwise up to `retries` attempts. -/
def download_pdf (pathExists : Bool) (net : Nat → GetResult) (retries : Nat) : Bool :=
  if pathExists then true else tryDownload net retries 1

/-- Per-record processing of `download_pdfs_parallel`: records without a
document URL are not submitted at all; for the others, `PDF File` is set to
the target path exactly when `download_pdf` reports success, and left
untouched (empty) otherwise (lines 241-255). -/
def processRecord (fsExists : Str → Bool) (net : Str → Nat → GetResult)
    (retries : Nat) (r : Record) : Record :=
  if r.upcDocument.isEmpty then r
  else if download_pdf (fsExists (targetPath r)) (net r.upcDocument) retries then
    { r with pdfFile := targetPath r }
  else r

/-- `download_pdfs_parallel(records, workers)` (lines 235-255): the tasks are
independent per record and the results are attributed per task after a join,
so the batch is the pointwise map of `processRecord`. -/
def download_pdfs_parallel (fsExists : Str → Bool) (net : Str → Nat → GetResult)
    (records : List Record) : List Record :=
  records.map (processRecord fsExists net RETRY_DOWNLOADS)

/-! ## `save` (lines 272-275) and crash-atomicity

`save` performs a single `df.to_excel(output_file, index=False)`: one
in-place write to the destination path, with no temporary file and no
rename.  We model the trace of file-system operations `save` performs, and
the on-disk content of the destination observable if the process crashes
after `k` bytes of that write have been flushed. -/

/-- A file-system operation. -/
inductive FsOp
  | writeTo (path : Str) (content : List Nat)
  | renameTo (src dst : Str)
deriving DecidableEq, Repr

/-- The operation trace of `save(df, output_file)`: a single in-place write
of the serialized workbook. -/
def save_ops (outputFile : Str) (content : List Nat) : List FsOp :=
  [.writeTo outputFile content]

/-- Whether an operation is a plain write (not a rename). -/
def isWriteOp : FsOp → Bool
  | .writeTo _ _ => true
  | .renameTo _ _ => false

/-- Content of the destination file if the process crashes once `k` bytes of
an in-place write of `content` have reached the disk: the previous content
is gone and only a prefix of the new content is present. -/
def crashContent (content : List Nat) (k : Nat) : List Nat := content.take k

/-- All destination-file states observable at some crash point during
`save`'s in-place write. -/
def crashStates (content : List Nat) : List (List Nat) :=
  (List.range (content.length + 1)).map (crashContent content)

/-! ## Concrete sample data, used to evaluate the definitions. -/

/-- A sample record. -/
def sampleA : Record := ⟨str "d1", str "r1", [], [], [], [], str "u1", [], 3⟩

/-- A second sample record sharing `sampleA`'s key. -/
def sampleB : Record := ⟨str "d2", str "r1", [], [], [], [], str "u1", [], 5⟩

/-- A third sample record with a fresh key. -/
def sampleC : Record := ⟨str "d3", str "r2", [], [], [], [], str "u2", [], 1⟩

/-- The header texts of the real decisions table, with `UPC Document` as the
seventh of seven columns. -/
def headersReal : List Str :=
  [str "Date", str "Registry", str "Full Details", str "Court",
   str "Type of action", str "Parties", str "UPC Document"]

/-- A cell with no text, no anchors and no `Full Details` link. -/
def cellEmpty : Cell := ⟨[], [], none⟩

/-- A date cell whose text does not parse in the `"%d %B %Y"` format. -/
def cellBadDate : Cell := ⟨str "not a date", [], none⟩

/-- The remaining cells of the sample malformed-date row. -/
def rowBadRest : List Cell :=
  [cellEmpty, cellEmpty, cellEmpty, cellEmpty, cellEmpty, cellEmpty]

/-- A seven-cell row whose date text is unparseable. -/
def rowBad : List Cell := cellBadDate :: rowBadRest

/-- The record `processRow` builds from `rowBad`. -/
def recUnparsed : Record :=
  buildRecord 0 cellBadDate cellEmpty cellEmpty cellEmpty cellEmpty cellEmpty

/-- A document cell holding a relative link. -/
def cellRelDoc : Cell := ⟨[], [some (str "/files/d1.pdf")], none⟩

/-- A seven-cell row whose document link is the relative `/files/d1.pdf`. -/
def rowRel : List Cell :=
  [cellEmpty, cellEmpty, cellEmpty, cellEmpty, cellEmpty, cellEmpty, cellRelDoc]

/-- The record `processRow` builds from `rowRel`. -/
def recRel : Record :=
  buildRecord 5 cellEmpty cellEmpty cellEmpty cellEmpty cellEmpty cellRelDoc

/-- A six-column header row in which no column is `UPC Document`. -/
def headersNoDoc : List Str :=
  [str "A", str "B", str "C", str "D", str "E", str "F"]

/-- A row of six empty cells. -/
def rowSix : List Cell :=
  [cellEmpty, cellEmpty, cellEmpty, cellEmpty, cellEmpty, cellEmpty]

/-- The record `processRow` builds from `rowSix` under the fallback index. -/
def recSix : Record :=
  buildRecord 0 cellEmpty cellEmpty cellEmpty cellEmpty cellEmpty cellEmpty

/-- A page-outcome trace in which one productive page is followed by three
consecutive load errors. -/
def traceAbort : List PageOutcome :=
  [.loaded [sampleA], .loadError, .loadError, .loadError]

/-- A page-outcome trace in which one productive page is followed by three
consecutive empty pages. -/
def traceStop : List PageOutcome :=
  [.loaded [sampleA], .loaded [], .loaded [], .loaded []]

/-! ## Lemmas about keep-first deduplication -/

theorem mem_seenAfter (l : List Record) : ∀ (seen : List (Str × Str))
    (k : Str × Str), k ∈ seenAfter l seen ↔ k ∈ l.map key ∨ k ∈ seen := by
  induction l with
  | nil => intro seen k; simp [seenAfter]
  | cons r rs ih =>
    intro seen k
    simp only [seenAfter, List.map_cons, List.mem_cons]
    by_cases h : key r ∈ seen
    · rw [if_pos h, ih]
      constructor
      · rintro (hk | hk)
        · exact Or.inl (Or.inr hk)
        · exact Or.inr hk
      · rintro ((hk | hk) | hk)
        · exact Or.inr (hk ▸ h)
        · exact Or.inl hk
        · exact Or.inr hk
    · rw [if_neg h, ih]
      simp only [List.mem_cons]
      tauto

theorem dedupKeep_append (l₁ l₂ : List Record) : ∀ seen,
    dedupKeep seen (l₁ ++ l₂)
      = dedupKeep seen l₁ ++ dedupKeep (seenAfter l₁ seen) l₂ := by
  induction l₁ with
  | nil => intro seen; simp [dedupKeep, seenAfter]
  | cons r rs ih =>
    intro seen
    by_cases h : key r ∈ seen
    · simp [dedupKeep, seenAfter, h, ih]
    · simp [dedupKeep, seenAfter, h, ih]

theorem dedupKeep_eq_nil (l : List Record) : ∀ seen,
    (∀ r ∈ l, key r ∈ seen) → dedupKeep seen l = [] := by
  induction l with
  | nil => intro _ _; rfl
  | cons r rs ih =>
    intro seen h
    rw [dedupKeep, if_pos (h r (List.mem_cons_self r rs))]
    exact ih seen fun x hx => h x (List.mem_cons_of_mem r hx)

theorem mem_map_key_dedupKeep (l : List Record) : ∀ seen (k : Str × Str),
    k ∈ (dedupKeep seen l).map key ↔ k ∈ l.map key ∧ k ∉ seen := by
  induction l with
  | nil => intro seen k; simp [dedupKeep]
  | cons r rs ih =>
    intro seen k
    simp only [dedupKeep, List.map_cons, List.mem_cons]
    by_cases h : key r ∈ seen
    · rw [if_pos h, ih]
      constructor
      · rintro ⟨hk, hs⟩
        exact ⟨Or.inr hk, hs⟩
      · rintro ⟨hk | hk, hs⟩
        · exact absurd (hk ▸ h) hs
        · exact ⟨hk, hs⟩
    · rw [if_neg h]
      have hih := ih (key r :: seen) k
      simp only [List.map_cons, List.mem_cons] at hih ⊢
      constructor
      · rintro (rfl | hk)
        · exact ⟨Or.inl rfl, h⟩
        · obtain ⟨hm, hns⟩ := hih.mp hk
          exact ⟨Or.inr hm, fun hx => hns (Or.inr hx)⟩
      · rintro ⟨rfl | hm, hns⟩
        · exact Or.inl rfl
        · by_cases hkr : k = key r
          · exact Or.inl hkr
          · refine Or.inr (hih.mpr ⟨hm, ?_⟩)
            rintro (hx | hx)
            exacts [hkr hx, hns hx]

theorem pairwise_key_dedupKeep (l : List Record) : ∀ seen,
    (dedupKeep seen l).Pairwise fun a b => key a ≠ key b := by
  induction l with
  | nil => intro _; exact List.Pairwise.nil
  | cons r rs ih =>
    intro seen
    rw [dedupKeep]
    by_cases h : key r ∈ seen
    · rw [if_pos h]
      exact ih seen
    · rw [if_neg h]
      refine List.Pairwise.cons (fun b hb => ?_) (ih _)
      intro hkey
      have hmem := (mem_map_key_dedupKeep rs (key r :: seen) (key b)).mp
        (List.mem_map_of_mem key hb)
      exact hmem.2 (hkey ▸ List.mem_cons_self (key r) seen)

theorem dedupKeep_eq_self (l : List Record) : ∀ seen,
    l.Pairwise (fun a b => key a ≠ key b) → (∀ r ∈ l, key r ∉ seen) →
    dedupKeep seen l = l := by
  induction l with
  | nil => intro _ _ _; rfl
  | cons r rs ih =>
    intro seen hp hs
    rw [dedupKeep, if_neg (hs r (List.mem_cons_self r rs))]
    congr 1
    refine ih (key r :: seen) (List.Pairwise.of_cons hp) fun x hx => ?_
    simp only [List.mem_cons]
    rintro (hk | hk)
    · exact (List.rel_of_pairwise_cons hp hx) hk.symm
    · exact hs x (List.mem_cons_of_mem r hx) hk

theorem sort_values_perm (l : List Record) : List.Perm (sort_values l) l :=
  List.perm_insertionSort pageLE l

theorem sorted_sort_values (l : List Record) :
    List.Sorted pageLE (sort_values l) :=
  List.sorted_insertionSort pageLE l

/-- Every record fed into the merge step keeps a representative of its key in
the merged dataset. -/
theorem key_mem_merge (old new : List Record) (r : Record)
    (h : r ∈ old ++ new) : ∃ rr ∈ merge old new, key rr = key r := by
  have h1 : key r ∈ (dedupKeep [] (old ++ new)).map key := by
    rw [mem_map_key_dedupKeep]
    exact ⟨List.mem_map_of_mem key h, by simp⟩
  have hperm : List.Perm (merge old new) (dedupKeep [] (old ++ new)) :=
    sort_values_perm (drop_duplicates (old ++ new))
  have h2 : key r ∈ (merge old new).map key := ((hperm.map key).mem_iff).mpr h1
  obtain ⟨rr, hrr, hk⟩ := List.mem_map.mp h2
  exact ⟨rr, hrr, hk⟩

/-- C1: the merge step is idempotent under the uniqueness key
(`Registry` joined text, `UPC Document`): merging the same new records a
second time changes nothing, and the merged dataset never holds two records
sharing that key. -/
theorem merge_idempotent_and_key_unique (D R : List Record) :
    merge (merge D R) R = merge D R ∧
    (merge D R).Pairwise fun a b => key a ≠ key b := by
  have hsymm : ∀ {a b : Record}, key a ≠ key b → key b ≠ key a :=
    fun h => h.symm
  have hXpw : (dedupKeep [] (D ++ R)).Pairwise fun a b => key a ≠ key b :=
    pairwise_key_dedupKeep (D ++ R) []
  have hperm : List.Perm (merge D R) (dedupKeep [] (D ++ R)) :=
    sort_values_perm (drop_duplicates (D ++ R))
  have hMpw : (merge D R).Pairwise fun a b => key a ≠ key b :=
    (hperm.pairwise_iff hsymm).mpr hXpw
  refine ⟨?_, hMpw⟩
  show sort_values (dedupKeep [] (merge D R ++ R)) = merge D R
  rw [dedupKeep_append (merge D R) R []]
  have h1 : dedupKeep [] (merge D R) = merge D R :=
    dedupKeep_eq_self (merge D R) [] hMpw (by intro r _; simp)
  have h2 : dedupKeep (seenAfter (merge D R) []) R = [] := by
    refine dedupKeep_eq_nil R _ fun r hr => ?_
    rw [mem_seenAfter]
    left
    have hkey : key r ∈ (dedupKeep [] (D ++ R)).map key := by
      rw [mem_map_key_dedupKeep]
      exact ⟨List.mem_map_of_mem key (List.mem_append_right D hr), by simp⟩
    exact ((hperm.map key).mem_iff).mpr hkey
  rw [h1, h2, List.append_nil]
  exact List.Sorted.insertionSort_eq (sorted_sort_values (drop_duplicates (D ++ R)))

/-- C2: the controller's initial page is `max(page_index) + 1` over the rows
of the persisted dataset where the page index is present, and `0` when the
dataset is empty or has no page-index value present. -/
theorem resume_start_page (pages : List (Option Nat)) (k : Nat) :
    ((pages.filterMap id).max? = some k → startPage pages = k + 1) ∧
    (pages.filterMap id = [] → startPage pages = 0) := by
  constructor
  · intro h
    simp [startPage, h]
  · intro h
    simp [startPage, h]

/-- Witness for C2 at concrete datasets. -/
theorem resume_start_page_witness :
    startPage [some 2, none, some 7] = 8 ∧ startPage [none, none] = 0 := by
  constructor
  · exact (resume_start_page [some 2, none, some 7] 7).1 (by decide)
  · exact (resume_start_page [none, none] 0).2 (by decide)

/-! ## Lemmas about the pagination loop -/

theorem scrape_snd (old : List Record) (maxEmpty maxErrors startPg : Nat)
    (outcomes : List PageOutcome) :
    (scrape old maxEmpty maxErrors startPg outcomes).2
      = merge old (accumulated maxEmpty maxErrors startPg outcomes) := by
  rcases h : runLoop maxEmpty maxErrors outcomes (initSt startPg) with ⟨st, s⟩
  simp [scrape, accumulated, h]

/-- C3: a page load/timeout failure increments the error counter and leaves
the accumulator alone; a successfully loaded page resets the counter to 0;
when the incremented counter reaches `max_errors` the step halts with
`Aborted`; and every record accumulated before the end of the run keeps its
key in the merged, persisted output — abort never causes total data loss. -/
theorem error_threshold_abort_persists
    (maxEmpty maxErrors : Nat) (s : LoopSt) (recs old : List Record)
    (startPg : Nat) (outcomes : List PageOutcome) (r : Record) :
    (s.errorCount + 1 < maxErrors →
      stepPage maxEmpty maxErrors s .loadError =
        .next { s with errorCount := s.errorCount + 1, page := s.page + 1 }) ∧
    ((stepPage maxEmpty maxErrors s (.loaded recs)).state.errorCount = 0) ∧
    (maxErrors ≤ s.errorCount + 1 →
      stepPage maxEmpty maxErrors s .loadError =
        .halt .aborted { s with errorCount := s.errorCount + 1 }) ∧
    (r ∈ accumulated maxEmpty maxErrors startPg outcomes →
      ∃ rr ∈ (scrape old maxEmpty maxErrors startPg outcomes).2,
        key rr = key r) := by
  refine ⟨?_, ?_, ?_, ?_⟩
  · intro h
    simp [stepPage, Nat.not_le.mpr h]
  · rcases recs with _ | ⟨x, xs⟩
    · by_cases h2 : maxEmpty ≤ s.emptyCount + 1 <;>
        simp [stepPage, h2, StepResult.state]
    · simp [stepPage, StepResult.state]
  · intro h
    simp [stepPage, h]
  · intro hr
    rw [scrape_snd]
    exact key_mem_merge old _ r (List.mem_append_right old hr)

/-- Witness for C3: the three counter behaviours at concrete loop states,
and key preservation for the record gathered before three consecutive
errors abort the run. -/
theorem error_threshold_abort_persists_witness :
    stepPage 3 3 ⟨0, 0, 0, []⟩ .loadError = .next ⟨1, 0, 1, []⟩ ∧
    (stepPage 3 3 ⟨9, 1, 2, []⟩ (.loaded [sampleA])).state.errorCount = 0 ∧
    stepPage 3 3 ⟨4, 0, 2, []⟩ .loadError = .halt .aborted ⟨4, 0, 3, []⟩ ∧
    (∃ rr ∈ (scrape [] 3 3 0 traceAbort).2, key rr = key sampleA) := by
  refine ⟨?_, ?_, ?_, ?_⟩
  · exact (error_threshold_abort_persists 3 3 ⟨0, 0, 0, []⟩ [] [] 0 []
      sampleA).1 (by decide)
  · exact (error_threshold_abort_persists 3 3 ⟨9, 1, 2, []⟩ [sampleA] [] 0 []
      sampleA).2.1
  · exact (error_threshold_abort_persists 3 3 ⟨4, 0, 2, []⟩ [] [] 0 []
      sampleA).2.2.1 (by decide)
  · exact (error_threshold_abort_persists 3 3 ⟨0, 0, 0, []⟩ [] [] 0 traceAbort
      sampleA).2.2.2 (by decide)

/-- C4: a page parsing to zero records increments the empty-page counter, a
page with at least one record resets it to 0, reaching `max_empty_pages`
halts with `Stopped` — a status distinct from `Aborted` — and every record
gathered before that point keeps its key in the merged, persisted output. -/
theorem empty_page_termination_persists
    (maxEmpty maxErrors : Nat) (s : LoopSt) (r0 : Record)
    (recs old : List Record) (startPg : Nat) (outcomes : List PageOutcome)
    (r : Record) :
    (s.emptyCount + 1 < maxEmpty →
      stepPage maxEmpty maxErrors s (.loaded []) =
        .next { s with errorCount := 0, emptyCount := s.emptyCount + 1, page := s.page + 1 }) ∧
    ((stepPage maxEmpty maxErrors s (.loaded (r0 :: recs))).state.emptyCount
        = 0) ∧
    (maxEmpty ≤ s.emptyCount + 1 →
      stepPage maxEmpty maxErrors s (.loaded []) =
        .halt .stopped { s with errorCount := 0, emptyCount := s.emptyCount + 1 } ∧
      RunStatus.stopped ≠ RunStatus.aborted) ∧
    (r ∈ accumulated maxEmpty maxErrors startPg outcomes →
      ∃ rr ∈ (scrape old maxEmpty maxErrors startPg outcomes).2,
        key rr = key r) := by
  refine ⟨?_, ?_, ?_, ?_⟩
  · intro h
    simp [stepPage, Nat.not_le.mpr h]
  · simp [stepPage, StepResult.state]
  · intro h
    refine ⟨by simp [stepPage, h], by simp⟩
  · intro hr
    rw [scrape_snd]
    exact key_mem_merge old _ r (List.mem_append_right old hr)

/-- Witness for C4: the three counter behaviours at concrete loop states,
and key preservation for the record gathered before three consecutive empty
pages stop the run. -/
theorem empty_page_termination_persists_witness :
    stepPage 3 3 ⟨5, 1, 0, []⟩ (.loaded []) = .next ⟨6, 2, 0, []⟩ ∧
    (stepPage 3 3 ⟨5, 2, 0, []⟩ (.loaded [sampleB])).state.emptyCount = 0 ∧
    stepPage 3 3 ⟨5, 2, 0, []⟩ (.loaded []) = .halt .stopped ⟨5, 3, 0, []⟩ ∧
    (∃ rr ∈ (scrape [] 3 3 0 traceStop).2, key rr = key sampleA) := by
  refine ⟨?_, ?_, ?_, ?_⟩
  · exact (empty_page_termination_persists 3 3 ⟨5, 1, 0, []⟩ sampleB [] [] 0 []
      sampleA).1 (by decide)
  · exact (empty_page_termination_persists 3 3 ⟨5, 2, 0, []⟩ sampleB [] [] 0 []
      sampleA).2.1
  · exact ((empty_page_termination_persists 3 3 ⟨5, 2, 0, []⟩ sampleB [] [] 0 []
      sampleA).2.2.1 (by decide)).1
  · exact (empty_page_termination_persists 3 3 ⟨5, 2, 0, []⟩ sampleB [] [] 0
      traceStop sampleA).2.2.2 (by decide)

/-! ## Lemmas about `parse_table` -/

theorem pyGet_eq_ok (l : List Cell) (i : Int) (h0 : 0 ≤ i)
    (hl : i < (l.length : Int)) : ∃ c, pyGet l i = .ok c := by
  have hn : i.toNat < l.length := by omega
  exact ⟨l.get ⟨i.toNat, hn⟩, by simp [pyGet, h0, List.getElem?_eq_getElem hn]⟩

theorem processRow_skip (idx : Int) (pg : Nat) (cells : List Cell)
    (h : (cells.length : Int) ≤ idx) : processRow idx pg cells = .ok none := by
  simp [processRow, h]

theorem processRow_emitted_lt (idx : Int) (pg : Nat) (cells : List Cell)
    (rec : Record) (h : processRow idx pg cells = .ok (some rec)) :
    idx < (cells.length : Int) := by
  by_contra hc
  rw [processRow_skip idx pg cells (Int.not_lt.mp hc)] at h
  exact Option.noConfusion (Except.ok.inj h)

theorem processRow_build (idx : Int) (pg : Nat) (cells : List Cell)
    (h4 : 4 ≤ idx) (hlt : idx < (cells.length : Int)) :
    ∃ c0 c1 c2 c3 c4 cu,
      pyGet cells 0 = .ok c0 ∧ pyGet cells idx = .ok cu ∧
      processRow idx pg cells
        = .ok (some (buildRecord pg c0 c1 c2 c3 c4 cu)) := by
  have hlen : (4 : Int) < (cells.length : Int) := lt_of_le_of_lt h4 hlt
  obtain ⟨c0, g0⟩ := pyGet_eq_ok cells 0 (by omega) (by omega)
  obtain ⟨c1, g1⟩ := pyGet_eq_ok cells 1 (by omega) (by omega)
  obtain ⟨c2, g2⟩ := pyGet_eq_ok cells 2 (by omega) (by omega)
  obtain ⟨c3, g3⟩ := pyGet_eq_ok cells 3 (by omega) (by omega)
  obtain ⟨c4, g4⟩ := pyGet_eq_ok cells 4 (by omega) (by omega)
  obtain ⟨cu, gu⟩ := pyGet_eq_ok cells idx (by omega) hlt
  refine ⟨c0, c1, c2, c3, c4, cu, g0, gu, ?_⟩
  rw [processRow, if_neg (by omega)]
  rw [g0, g1, g2, g3, g4, gu]

theorem parseRows_ok (idx : Int) (pg : Nat) (h4 : 4 ≤ idx) :
    ∀ rows, ∃ rs, parseRows idx pg rows = .ok rs := by
  intro rows
  induction rows with
  | nil => exact ⟨[], rfl⟩
  | cons cs rest ih =>
    obtain ⟨rs, hrs⟩ := ih
    by_cases h : (cs.length : Int) ≤ idx
    · exact ⟨rs, by rw [parseRows, processRow_skip idx pg cs h, hrs]⟩
    · obtain ⟨c0, c1, c2, c3, c4, cu, _, _, hp⟩ :=
        processRow_build idx pg cs h4 (Int.not_le.mp h)
      exact ⟨_, by rw [parseRows, hp, hrs]⟩

/-- Counterexample to C7 as stated: with a header row whose single column is
not `UPC Document`, the fallback document-column index is `0`, a one-cell
row passes the guard, and reading cell 1 raises an `IndexError` that
propagates out of `parse_table` — extraction does not tolerate every raw
row set. -/
theorem parse_table_raises_counterexample :
    parse_table [str "A"] [[cellEmpty]] 0 = .error () := rfl

/-- C7, amended: provided the document-column index is at least 4 (as on the
real table, where `UPC Document` is the seventh of seven columns),
extraction never raises; a row with at most `upc_idx` cells is skipped, and
an emitted row whose stripped date text does not parse in the `"%d %B %Y"`
format keeps that text verbatim as its date. -/
theorem extraction_tolerance_amended
    (headers : List Str) (rows : List (List Cell)) (pg : Nat)
    (cells : List Cell) (c0 : Cell) (rest : List Cell) (rec : Record)
    (h4 : (4 : Int) ≤ upcIdx headers) :
    (∃ rs, parse_table headers rows pg = .ok rs) ∧
    ((cells.length : Int) ≤ upcIdx headers →
      processRow (upcIdx headers) pg cells = .ok none) ∧
    (cells = c0 :: rest →
      processRow (upcIdx headers) pg cells = .ok (some rec) →
      parseDateDMY (trimChars c0.text) = none →
      rec.date = trimChars c0.text) := by
  refine ⟨parseRows_ok _ pg h4 rows, fun h => processRow_skip _ pg cells h, ?_⟩
  rintro rfl hok hdate
  have hlt := processRow_emitted_lt _ pg _ rec hok
  obtain ⟨d0, d1, d2, d3, d4, du, g0, _, hp⟩ :=
    processRow_build (upcIdx headers) pg (c0 :: rest) h4 hlt
  rw [hp] at hok
  have hd0 : d0 = c0 := by
    have hc : pyGet (c0 :: rest) 0 = .ok c0 := rfl
    rw [hc] at g0
    exact (Except.ok.inj g0).symm
  have hrec : rec = buildRecord pg d0 d1 d2 d3 d4 du :=
    (Option.some.inj (Except.ok.inj hok)).symm
  rw [hrec, hd0]
  simp [buildRecord, hdate]

/-- Witness for C7 (amended): on the real seven-column header row, a
malformed-date row is parsed without an error, a short row is skipped, and
the unparseable date text `not a date` is kept verbatim. -/
theorem extraction_tolerance_witness :
    (∃ rs, parse_table headersReal [rowBad] 0 = .ok rs) ∧
    processRow (upcIdx headersReal) 0 [cellEmpty] = .ok none ∧
    recUnparsed.date = trimChars cellBadDate.text := by
  refine ⟨?_, ?_, ?_⟩
  · exact (extraction_tolerance_amended headersReal [rowBad] 0 [] cellEmpty []
      recUnparsed (by decide)).1
  · exact (extraction_tolerance_amended headersReal [] 0 [cellEmpty] cellEmpty
      [] recUnparsed (by decide)).2.1 (by decide)
  · exact (extraction_tolerance_amended headersReal [] 0 rowBad cellBadDate
      rowBadRest recUnparsed (by decide)).2.2 rfl rfl (by decide)

/-- C10: when no stripped header text is exactly `UPC Document`, the
document column falls back to the last header column (`len(headers) - 1`); a
record is emitted from a row only when its cell count strictly exceeds that
index, and every row with at most `h - 1` cells is skipped. -/
theorem document_column_fallback
    (headers : List Str) (pg : Nat) (cells : List Cell) (rec : Record)
    (hno : ∀ h ∈ headers, trimChars h ≠ str "UPC Document") :
    upcIdx headers = (headers.length : Int) - 1 ∧
    (processRow (upcIdx headers) pg cells = .ok (some rec) →
      ((headers.length : Int) - 1) < (cells.length : Int)) ∧
    ((cells.length : Int) ≤ (headers.length : Int) - 1 →
      processRow (upcIdx headers) pg cells = .ok none) := by
  have hidx : upcIdx headers = (headers.length : Int) - 1 := by
    rw [upcIdx]
    have hnone : (headers.map trimChars).findIdx?
        (fun h => h = str "UPC Document") = none := by
      rw [List.findIdx?_eq_none_iff]
      intro x hx
      obtain ⟨h, hh, rfl⟩ := List.mem_map.mp hx
      simpa using hno h hh
    rw [hnone]
  refine ⟨hidx, ?_, ?_⟩
  · intro h
    exact hidx ▸ processRow_emitted_lt (upcIdx headers) pg cells rec h
  · intro h
    exact processRow_skip (upcIdx headers) pg cells (hidx ▸ h)

/-- Witness for C10 at a six-column header row without `UPC Document`: the
fallback index is the last column, an emitted six-cell row indeed has more
than five cells, and a one-cell row is skipped. -/
theorem document_column_fallback_witness :
    upcIdx headersNoDoc = (headersNoDoc.length : Int) - 1 ∧
    ((headersNoDoc.length : Int) - 1) < (rowSix.length : Int) ∧
    processRow (upcIdx headersNoDoc) 0 [cellEmpty] = .ok none := by
  refine ⟨?_, ?_, ?_⟩
  · exact (document_column_fallback headersNoDoc 0 rowSix recSix
      (by decide)).1
  · exact (document_column_fallback headersNoDoc 0 rowSix recSix
      (by decide)).2.1 rfl
  · exact (document_column_fallback headersNoDoc 0 [cellEmpty] recSix
      (by decide)).2.2 (by decide)

/-! ## Lemmas about the download retry loop -/

theorem attemptsUsed_le (net : Nat → GetResult) :
    ∀ fuel a, attemptsUsed net fuel a ≤ fuel := by
  intro fuel
  induction fuel with
  | zero => intro a; exact Nat.le_refl 0
  | succ n ih =>
    intro a
    rw [attemptsUsed]
    by_cases h : attemptOk (net a) = true
    · simp [h]
    · rw [if_neg h]
      have := ih (a + 1)
      omega

theorem delaysUsed_two (net : Nat → GetResult) :
    ∀ fuel a, ∀ d ∈ delaysUsed net fuel a, d = 2 := by
  intro fuel
  induction fuel with
  | zero => intro a d hd; simp [delaysUsed] at hd
  | succ n ih =>
    intro a d hd
    rw [delaysUsed] at hd
    by_cases h : attemptOk (net a) = true
    · rw [if_pos h] at hd
      simp at hd
    · rw [if_neg h] at hd
      rcases List.mem_cons.mp hd with h2 | h2
      · exact h2
      · exact ih (a + 1) d h2

theorem tryDownload_false (net : Nat → GetResult) :
    ∀ fuel a, (∀ j, a ≤ j → j < a + fuel → attemptOk (net j) = false) →
    tryDownload net fuel a = false := by
  intro fuel
  induction fuel with
  | zero => intro a _; rfl
  | succ n ih =>
    intro a h
    rw [tryDownload, if_neg (by simp [h a (Nat.le_refl a) (by omega)])]
    exact ih (a + 1) fun j h1 h2 => h j (by omega) (by omega)

/-- Counterexample to C5 as stated: the claim's failure criterion is
"non-2xx or transport error", but the code treats any status other than
exactly `200` as a failed attempt — a `204` response is 2xx yet fails, and a
download whose every attempt returns `204` is marked failed. -/
theorem download_attempt_2xx_counterexample :
    attemptOk (.resp 204) = false ∧ attemptOkClaim (.resp 204) = true ∧
    download_pdf false (fun _ => .resp 204) RETRY_DOWNLOADS = false := by
  refine ⟨rfl, by decide, rfl⟩

/-- C5, amended: a download is attempted at most `retries` times with a
fixed two-second (non-exponential) delay after each failure; an attempt
succeeds iff the response status is exactly `200` (a transport error always
fails); exhausting the retries leaves only that record unmarked (its
`PDF File` stays as it was, empty), a record with an empty document URL is
not submitted, an already-present target file short-circuits to success,
and the rest of the batch is still processed pointwise. -/
theorem download_retry_policy_amended
    (fsExists : Str → Bool) (net : Str → Nat → GetResult)
    (netr : Nat → GetResult) (retries sc : Nat) (r : Record)
    (pre post : List Record) :
    attemptsUsed netr retries 1 ≤ retries ∧
    (∀ d ∈ delaysUsed netr retries 1, d = 2) ∧
    (attemptOk (.resp sc) = true ↔ sc = 200) ∧
    attemptOk .transportError = false ∧
    download_pdf true netr retries = true ∧
    ((∀ j, 1 ≤ j → j ≤ retries → attemptOk (netr j) = false) →
      download_pdf false netr retries = false) ∧
    (download_pdf (fsExists (targetPath r)) (net r.upcDocument)
        RETRY_DOWNLOADS = false →
      processRecord fsExists net RETRY_DOWNLOADS r = r) ∧
    (r.upcDocument = [] → processRecord fsExists net RETRY_DOWNLOADS r = r) ∧
    download_pdfs_parallel fsExists net (pre ++ r :: post) =
      download_pdfs_parallel fsExists net pre
        ++ processRecord fsExists net RETRY_DOWNLOADS r
        :: download_pdfs_parallel fsExists net post := by
  refine ⟨attemptsUsed_le netr retries 1, delaysUsed_two netr retries 1,
    by simp [attemptOk], rfl, rfl, ?_, ?_, ?_, ?_⟩
  · intro h
    rw [download_pdf, if_neg (by simp)]
    exact tryDownload_false netr retries 1 fun j h1 h2 => h j h1 (by omega)
  · intro hfail
    simp [processRecord, hfail]
  · intro hurl
    simp [processRecord, hurl]
  · simp [download_pdfs_parallel]

/-- Witness for C5 (amended), at a record whose three attempts all return
`404`: the download fails, the record keeps its empty `PDF File`, and a
neighbouring record in the batch is still processed. -/
theorem download_retry_policy_witness :
    attemptsUsed (fun _ => .resp 404) 3 1 ≤ 3 ∧
    (attemptOk (.resp 200) = true ↔ (200 : Nat) = 200) ∧
    download_pdf false (fun _ => .resp 404) 3 = false ∧
    processRecord (fun _ => false) (fun _ _ => .resp 404) RETRY_DOWNLOADS
      sampleA = sampleA ∧
    download_pdfs_parallel (fun _ => false) (fun _ _ => .resp 404)
        ([sampleB] ++ sampleA :: [sampleC]) =
      download_pdfs_parallel (fun _ => false) (fun _ _ => .resp 404) [sampleB]
        ++ processRecord (fun _ => false) (fun _ _ => .resp 404)
            RETRY_DOWNLOADS sampleA
        :: download_pdfs_parallel (fun _ => false) (fun _ _ => .resp 404)
            [sampleC] := by
  refine ⟨?_, ?_, ?_, ?_, ?_⟩
  · exact (download_retry_policy_amended (fun _ => false) (fun _ _ => .resp 404)
      (fun _ => .resp 404) 3 200 sampleA [] []).1
  · exact (download_retry_policy_amended (fun _ => false) (fun _ _ => .resp 404)
      (fun _ => .resp 404) 3 200 sampleA [] []).2.2.1
  · exact (download_retry_policy_amended (fun _ => false) (fun _ _ => .resp 404)
      (fun _ => .resp 404) 3 200 sampleA [] []).2.2.2.2.2.1
      (fun j _ _ => rfl)
  · exact (download_retry_policy_amended (fun _ => false) (fun _ _ => .resp 404)
      (fun _ => .resp 404) 3 200 sampleA [] []).2.2.2.2.2.2.1 rfl
  · exact (download_retry_policy_amended (fun _ => false) (fun _ _ => .resp 404)
      (fun _ => .resp 404) 3 200 sampleA [sampleB] [sampleC]).2.2.2.2.2.2.2.2

/-! ## Lemmas about `sanitize` and the target filename -/

theorem trimChars_subset (l : Str) : trimChars l ⊆ l := by
  intro c hc
  rw [trimChars, List.mem_reverse] at hc
  have h1 := (List.dropWhile_sublist Char.isWhitespace).subset hc
  rw [List.mem_reverse] at h1
  exact (List.dropWhile_sublist Char.isWhitespace).subset h1

theorem sanitizeChars_mem (cs : Str) (c : Char) (h : c ∈ sanitizeChars cs) :
    c.isAlphanum = true ∨ c = '-' ∨ c = '_' := by
  rw [sanitizeChars] at h
  obtain ⟨d, hd, rfl⟩ := List.mem_map.mp h
  have hd2 : d ∈ (cs.map replSlash).filter keepChar := trimChars_subset _ hd
  have hk : keepChar d = true := (List.mem_filter.mp hd2).2
  by_cases hsp : d = ' '
  · rw [if_pos hsp]
    exact Or.inr (Or.inr rfl)
  · rw [if_neg hsp]
    simp only [keepChar, Bool.or_eq_true, beq_iff_eq] at hk
    rcases hk with ((ha | hb) | hc2) | hd3
    · exact Or.inl ha
    · exact Or.inr (Or.inl hb)
    · exact Or.inr (Or.inr hc2)
    · exact absurd hd3 hsp

theorem filter_map_eq_filterMap (cs : Str) :
    (cs.map replSlash).filter keepChar
      = cs.filterMap fun c =>
          let c := replSlash c
          if keepChar c then some c else none := by
  induction cs with
  | nil => rfl
  | cons c rest ih =>
    simp only [List.map_cons, List.filter_cons, List.filterMap_cons]
    by_cases h : keepChar (replSlash c) = true
    · simp only [h, if_true, ih]
    · simp only [Bool.not_eq_true] at h
      simp only [h, Bool.false_eq_true, if_false, ih]

theorem sanitizeChars_eq_amended (cs : Str) :
    sanitizeChars cs = sanitizeAmendedChars cs := by
  rw [sanitizeChars, sanitizeAmendedChars, filter_map_eq_filterMap]

theorem pdfFilename_chars (d p r c : Str) (ch : Char)
    (h : ch ∈ pdfFilename d p r c) :
    ch.isAlphanum = true ∨ ch = '-' ∨ ch = '_' ∨ ch = '.' := by
  have hpdf : str ".pdf" = ['.', 'p', 'd', 'f'] := rfl
  have hflat : ch ∈ sanitizeChars d ∨ ch ∈ sanitizeChars p ∨
      ch ∈ sanitizeChars r ∨ ch ∈ sanitizeChars c ∨
      ch = '_' ∨ ch = '.' ∨ ch = 'p' ∨ ch = 'd' ∨ ch = 'f' := by
    rw [pdfFilename, hpdf] at h
    simp only [List.mem_append, List.mem_cons, List.not_mem_nil, or_false] at h
    tauto
  have hsan : ∀ s : Str, ch ∈ sanitizeChars s →
      ch.isAlphanum = true ∨ ch = '-' ∨ ch = '_' ∨ ch = '.' := by
    intro s hs
    rcases sanitizeChars_mem s ch hs with h1 | h1 | h1
    exacts [Or.inl h1, Or.inr (Or.inl h1), Or.inr (Or.inr (Or.inl h1))]
  rcases hflat with h1 | h1 | h1 | h1 | h1 | h1 | h1 | h1 | h1
  · exact hsan d h1
  · exact hsan p h1
  · exact hsan r h1
  · exact hsan c h1
  · exact Or.inr (Or.inr (Or.inl h1))
  · exact Or.inr (Or.inr (Or.inr h1))
  · exact Or.inl (h1 ▸ by decide)
  · exact Or.inl (h1 ▸ by decide)
  · exact Or.inl (h1 ▸ by decide)

/-- Counterexample to C6 as stated: `sanitize` does not strip `/` — it first
replaces it by `-` — and it also trims boundary spaces, which the claim's
description does not; moreover the built filename always contains the
punctuation characters `_` and `.`. -/
theorem sanitize_slash_counterexample :
    sanitizeChars (str "a/b") = str "a-b" ∧
    sanitizeClaimChars (str "a/b") = str "ab" ∧
    sanitizeChars (str "a/b") ≠ sanitizeClaimChars (str "a/b") ∧
    sanitizeChars (str " a") = str "a" ∧
    sanitizeClaimChars (str " a") = str "_a" ∧
    '.' ∈ pdfFilename (str "d") (str "p") (str "r") (str "c") ∧
    '_' ∈ pdfFilename (str "d") (str "p") (str "r") (str "c") := by
  refine ⟨by decide, by decide, by decide, by decide, by decide, by decide,
    by decide⟩

/-- C6, amended: `sanitize` first replaces `/` by `-`, keeps exactly the
alphanumerics, space, `-` and `_` (stripping every other character), trims
leading/trailing spaces, and turns the remaining spaces into `_`; the built
filename is deterministic in the four fields, every one of its characters is
alphanumeric or one of `-`, `_`, `.`, and in particular `/` never occurs. -/
theorem sanitize_filename_amended
    (cs d p r c d2 p2 r2 c2 : Str) (ch : Char) :
    sanitizeChars cs = sanitizeAmendedChars cs ∧
    (d = d2 → p = p2 → r = r2 → c = c2 →
      pdfFilename d p r c = pdfFilename d2 p2 r2 c2) ∧
    (ch ∈ pdfFilename d p r c →
      ch.isAlphanum = true ∨ ch = '-' ∨ ch = '_' ∨ ch = '.') ∧
    '/' ∉ pdfFilename d p r c := by
  refine ⟨sanitizeChars_eq_amended cs, ?_, pdfFilename_chars d p r c ch, ?_⟩
  · rintro rfl rfl rfl rfl
    rfl
  · intro hmem
    rcases pdfFilename_chars d p r c '/' hmem with h1 | h1 | h1 | h1
    · exact absurd h1 (by decide)
    · exact absurd h1 (by decide)
    · exact absurd h1 (by decide)
    · exact absurd h1 (by decide)

/-- Witness for C6 (amended) at concrete field values. -/
theorem sanitize_filename_witness :
    sanitizeChars (str "a b/c") = sanitizeAmendedChars (str "a b/c") ∧
    pdfFilename (str "d") (str "p") (str "r") (str "c")
      = pdfFilename (str "d") (str "p") (str "r") (str "c") ∧
    ('_'.isAlphanum = true ∨ '_' = '-' ∨ '_' = '_' ∨ '_' = '.') ∧
    '/' ∉ pdfFilename (str "5 March/2024") (str "A v. B") (str "UPC 1/2024")
      (str "CFI") := by
  refine ⟨?_, ?_, ?_, ?_⟩
  · exact (sanitize_filename_amended (str "a b/c") [] [] [] [] [] [] [] []
      '_').1
  · exact (sanitize_filename_amended [] (str "d") (str "p") (str "r") (str "c")
      (str "d") (str "p") (str "r") (str "c") '_').2.1 rfl rfl rfl rfl
  · exact (sanitize_filename_amended [] (str "d") (str "p") (str "r") (str "c")
      (str "d") (str "p") (str "r") (str "c") '_').2.2.1 (by decide)
  · exact (sanitize_filename_amended [] (str "5 March/2024") (str "A v. B")
      (str "UPC 1/2024") (str "CFI") [] [] [] [] '_').2.2.2

/-- C8 diverges from the code: `parse_table` resolves a relative document
link against the module constant `BASE_URL`, not against the base URL of
the listing being scraped (`args.base_url`, line 293).  On the real header
row, a row whose document link is `/files/d1.pdf` yields a record resolved
to the `unified-patent-court.org` host even when the listing being scraped
is `https://example.org/decisions`, whose resolution would be the
`example.org` URL. -/
theorem upc_doc_resolved_against_constant_base :
    (∃ rec, parse_table headersReal [rowRel] 5 = .ok [rec] ∧
      rec.upcDocument
        = str "https://www.unified-patent-court.org/files/d1.pdf") ∧
    urljoin (str "https://example.org/decisions") (str "/files/d1.pdf")
      = str "https://example.org/files/d1.pdf" ∧
    str "https://www.unified-patent-court.org/files/d1.pdf"
      ≠ str "https://example.org/files/d1.pdf" := by
  refine ⟨⟨recRel, rfl, by decide⟩, by decide, by decide⟩

/-- C9 diverges from the code: `save` performs a single in-place write of
the workbook to the destination path — no temporary file and no rename — so
there is a crash point (here, after one byte of the new content has been
flushed) at which the on-disk file is neither the old dataset nor the new
one. -/
theorem save_in_place_not_atomic (p : Str) (b : List Nat) :
    save_ops p b = [.writeTo p b] ∧
    (save_ops p b).all isWriteOp = true ∧
    crashContent [4, 5, 6] 1 ∈ crashStates [4, 5, 6] ∧
    crashContent [4, 5, 6] 1 ≠ [1, 2, 3] ∧
    crashContent [4, 5, 6] 1 ≠ [4, 5, 6] :=
  ⟨rfl, rfl, by decide, by decide, by decide⟩

end JUBScrap
